import Mathlib

/-!
# NetFPGA event-capture dissector (`packet-openflow.c`)

A shallow embedding of `dissect_openflow` and of the helpers it calls
(`add_child`, `add_child_const`), followed by theorems about the header
decoding and the event loop.

Conventions of the embedding

* A `tvbuff_t` is the list of its bytes.  The tvbuff accessors
  (`tvb_get_guint8`, `tvb_get_ntohl`) raise a bounds exception when asked for
  bytes past the end of the buffer; here they return `none`.
* `guint32` values are natural numbers; the arithmetic the dissector performs
  on them (`offset += len`, `MAX_EC_SIZE - 4`, `~MASK_TIME_LSB`) is reduced
  modulo `2^32` explicitly.
* The constants `MASK_VERSION`, `MASK_QUEUE_ID`, `MASK_PACKET_LEN`,
  `MASK_TIME_LSB`, `TYPE_TIMESTAMP` and `MAX_EC_SIZE` are used by the
  dissector but defined in a header that is not part of the source tree; they
  are parameters (`Consts`).
* The display side of the dissector (column text, subtree handles, the
  rendering done by `timestamp8ns_to_string` and `event_to_string`, the
  highlight length handed to `proto_tree_add_string`) is not modelled: an
  emitted tree item is recorded as the values that are rendered.
* The dissector is modelled on the path where `tree` is not `NULL`.
-/

namespace OpenflowDissector

/-! ## Data model -/

/-- Bytes of a captured frame, the contents of a `tvbuff_t`. -/
abbrev tvbuff := List (Fin 256)

/-- Constants the dissector uses whose definitions are outside the source
tree.  Each field is the value of the macro of the same name. -/
structure Consts where
  MASK_VERSION : Nat
  MASK_QUEUE_ID : Nat
  MASK_PACKET_LEN : Nat
  MASK_TIME_LSB : Nat
  TYPE_TIMESTAMP : Nat
  MAX_EC_SIZE : Nat
deriving DecidableEq, Repr

/-- Values of the header fields the dissector extracts: `ver`, `seq`, `ts_top`
and `ts_btm` are the locals computed at the top of `dissect_openflow`; the
remaining ones are the values of the header-tree items added with `add_child`. -/
structure Header where
  version : Nat
  num_events : Nat
  seq : Nat
  queue_sizes : List (Nat × Nat)
  ts_top : Nat
  ts_btm : Nat
deriving DecidableEq, Repr

/-- One item added to `of_tree` by the event loop.  `FullTimestampRefresh` is
the item of the `type == TYPE_TIMESTAMP` branch, rendered from
`(ts_top, ts_btm)`; `ShortEvent` is the item of the other branch, rendered from
`(type, queue_id, plen, ts_top, ts_btm_me)`.  `start` is the offset the item is
attached to. -/
inductive EventRecord where
  | FullTimestampRefresh (start ts_top ts_btm : Nat)
  | ShortEvent (start type queue_id plen ts_top ts_btm : Nat)
deriving DecidableEq, Repr

/-- Locals the event loop reads and writes: `offset`, `ts_top`, `ts_btm`. -/
structure LoopState where
  offset : Nat
  ts_top : Nat
  ts_btm : Nat
deriving DecidableEq, Repr

/-- What one evaluation of the loop condition and body does: add an item and
continue from a new state, leave the loop (condition false, or `break`), or
raise the tvbuff bounds exception. -/
inductive StepResult where
  | emit (e : EventRecord) (s : LoopState)
  | stop
  | throw
deriving DecidableEq, Repr

/-- How a run of the dissector ended: normally (`done`), with the tvbuff bounds
exception (`TooShort`, the name the specification gives this failure), or,
for the model only, because the iteration budget was used up. -/
inductive Outcome where
  | done
  | TooShort
  | out_of_fuel
deriving DecidableEq, Repr

/-- Result of running the event loop: the items added, the values of the locals
when the loop was left, and how it was left. -/
structure Trace where
  events : List EventRecord
  final : LoopState
  outcome : Outcome
deriving DecidableEq, Repr

/-- Result of `dissect_openflow`: the header values (absent when a header read
raised the bounds exception), the event items added, and how the call ended. -/
structure Dissection where
  header : Option Header
  events : List EventRecord
  outcome : Outcome
deriving DecidableEq, Repr

/-! ## Machine arithmetic -/

/-- Addition of two `guint32` values. -/
def u32_add (a b : Nat) : Nat := (a + b) % 4294967296

/-- Subtraction `a - b` evaluated in 32 bits and read as a `guint32`. -/
def u32_sub (a b : Nat) : Nat :=
  (a % 4294967296 + 4294967296 - b % 4294967296) % 4294967296

/-- Bitwise complement `~a` in 32 bits. -/
def u32_not (a : Nat) : Nat := 4294967295 ^^^ (a % 4294967296)

/-! ## tvbuff accessors -/

/-- Byte at `offset`; `none` stands for the bounds exception. -/
def tvb_get_guint8 (tvb : tvbuff) (offset : Nat) : Option Nat :=
  match tvb[offset]? with
  | some b => some b.val
  | none => none

/-- Four bytes at `offset` read in network (big-endian) order; `none` stands
for the bounds exception. -/
def tvb_get_ntohl (tvb : tvbuff) (offset : Nat) : Option Nat :=
  match tvb_get_guint8 tvb offset, tvb_get_guint8 tvb (offset + 1),
        tvb_get_guint8 tvb (offset + 2), tvb_get_guint8 tvb (offset + 3) with
  | some b0, some b1, some b2, some b3 =>
    some (b0 * 16777216 + b1 * 65536 + b2 * 256 + b3)
  | _, _, _, _ => none

/-- Value of the unsigned header-tree item `proto_tree_add_item` attaches at
`offset` with `len` bytes and big-endian encoding (the dissector passes `FALSE`
for `little_endian`, and only the lengths 1 and 4). -/
def proto_tree_add_item (tvb : tvbuff) (offset len : Nat) : Option Nat :=
  if len = 1 then tvb_get_guint8 tvb offset
  else if len = 4 then tvb_get_ntohl tvb offset
  else none

/-- Embedding of `add_child`: adds the item and advances `*offset` by `len`;
returns the item value and the new offset. -/
def add_child (tvb : tvbuff) (offset len : Nat) : Option (Nat × Nat) :=
  match proto_tree_add_item tvb offset len with
  | some v => some (v, u32_add offset len)
  | none => none

/-- Embedding of `add_child_const`: adds the item, the offset is not changed. -/
def add_child_const (tvb : tvbuff) (offset len : Nat) : Option Nat :=
  proto_tree_add_item tvb offset len

/-! ## Header -/

/-- The loop `for (i = 0; i < 8; i++)` of the header: `n` is the number of
iterations still to run; each adds a words item and a packets item. -/
def queue_loop (tvb : tvbuff) : Nat → Nat → Option (List (Nat × Nat) × Nat)
  | 0, offset => some ([], offset)
  | n + 1, offset =>
    match add_child tvb offset 4 with
    | none => none
    | some (words, offset1) =>
      match add_child tvb offset1 4 with
      | none => none
      | some (pkts, offset2) =>
        match queue_loop tvb n offset2 with
        | none => none
        | some (rest, offset3) => some ((words, pkts) :: rest, offset3)

/-- Header part of `dissect_openflow`: the four reads at the top of the
function, then the header-tree items in source order with `offset` threaded
through.  Returns the header values and the offset at which the event loop
starts; `none` stands for the bounds exception. -/
def dissect_header (c : Consts) (tvb : tvbuff) : Option (Header × Nat) :=
  match tvb_get_guint8 tvb 0, tvb_get_ntohl tvb 2,
        tvb_get_ntohl tvb 70, tvb_get_ntohl tvb 74 with
  | some b0, some seq, some ts_top, some ts_btm =>
    let ver := b0 &&& c.MASK_VERSION
    let offset := 0
    match add_child_const tvb offset 1, add_child_const tvb offset 1 with
    | some _, some _ =>
      let offset := u32_add offset 1
      match add_child tvb offset 1 with
      | none => none
      | some (num_events, offset) =>
        match add_child tvb offset 4 with
        | none => none
        | some (_, offset) =>
          match queue_loop tvb 8 offset with
          | none => none
          | some (queues, offset) =>
            some (⟨ver, num_events, seq, queues, ts_top, ts_btm⟩, u32_add offset 8)
    | _, _ => none
  | _, _, _, _ => none

/-! ## Event loop -/

/-- One evaluation of the `while` condition and body of the event loop. -/
def event_step (c : Consts) (tvb : tvbuff) (s : LoopState) : StepResult :=
  if s.offset ≤ u32_sub c.MAX_EC_SIZE 4 then
    match tvb_get_guint8 tvb s.offset with
    | none => .throw
    | some b =>
      let type := (b &&& 0xC0) >>> 6
      if type = c.TYPE_TIMESTAMP then
        if s.offset > u32_sub c.MAX_EC_SIZE 8 then .stop
        else
          match tvb_get_ntohl tvb s.offset with
          | none => .throw
          | some ts_top =>
            match tvb_get_ntohl tvb (u32_add s.offset 4) with
            | none => .throw
            | some ts_btm =>
              .emit (.FullTimestampRefresh s.offset ts_top ts_btm)
                ⟨u32_add s.offset 8, ts_top, ts_btm⟩
      else
        match tvb_get_ntohl tvb s.offset with
        | none => .throw
        | some event_val =>
          let queue_id := (event_val &&& c.MASK_QUEUE_ID) >>> 27
          let plen := (event_val &&& c.MASK_PACKET_LEN) >>> 19
          let ts_btm_me :=
            (s.ts_btm &&& u32_not c.MASK_TIME_LSB) ||| (event_val &&& c.MASK_TIME_LSB)
          .emit (.ShortEvent s.offset type queue_id plen s.ts_top ts_btm_me)
            ⟨u32_add s.offset 4, s.ts_top, s.ts_btm⟩
  else .stop

/-- The `while` loop: at most `fuel` evaluations of the condition and body. -/
def event_loop (c : Consts) (tvb : tvbuff) : Nat → LoopState → Trace
  | 0, s => ⟨[], s, .out_of_fuel⟩
  | fuel + 1, s =>
    match event_step c tvb s with
    | .emit e s1 =>
      let r := event_loop c tvb fuel s1
      ⟨e :: r.events, r.final, r.outcome⟩
    | .stop => ⟨[], s, .done⟩
    | .throw => ⟨[], s, .TooShort⟩

/-- Embedding of `dissect_openflow` with a tree to fill: the header, then the
event loop started at the offset after the header with the header timestamp in
`ts_top` and `ts_btm`. -/
def dissect_openflow (c : Consts) (tvb : tvbuff) (fuel : Nat) : Dissection :=
  match dissect_header c tvb with
  | none => ⟨none, [], .TooShort⟩
  | some (h, offset) =>
    let r := event_loop c tvb fuel ⟨offset, h.ts_top, h.ts_btm⟩
    ⟨some h, r.events, r.outcome⟩

/-! ## Reference notions used to state the properties -/

/-- Byte of the buffer at index `i` as a number (0 when `i` is past the end). -/
def byteAt (tvb : tvbuff) (i : Nat) : Nat := (tvb.getD i 0).val

/-- Big-endian 32-bit value of the four bytes at `off`. -/
def be32At (tvb : tvbuff) (off : Nat) : Nat :=
  byteAt tvb off * 16777216 + byteAt tvb (off + 1) * 65536
    + byteAt tvb (off + 2) * 256 + byteAt tvb (off + 3)

/-- Two-bit type tag of the record starting at `off`. -/
def tagAt (tvb : tvbuff) (off : Nat) : Nat := (byteAt tvb off &&& 0xC0) >>> 6

/-- Short-event item the loop builds for the record at `off` when the running
timestamp is `(top, btm)`. -/
def shortEventAt (c : Consts) (tvb : tvbuff) (off top btm : Nat) : EventRecord :=
  .ShortEvent off (tagAt tvb off)
    ((be32At tvb off &&& c.MASK_QUEUE_ID) >>> 27)
    ((be32At tvb off &&& c.MASK_PACKET_LEN) >>> 19)
    top
    ((btm &&& u32_not c.MASK_TIME_LSB) ||| (be32At tvb off &&& c.MASK_TIME_LSB))

/-- Number of buffer bytes a record covers: 8 for a full timestamp, 4 for a
short event. -/
def EventRecord.size : EventRecord → Nat
  | .FullTimestampRefresh _ _ _ => 8
  | .ShortEvent _ _ _ _ _ _ => 4

/-- Offset of the first byte of the record an item was decoded from. -/
def EventRecord.start : EventRecord → Nat
  | .FullTimestampRefresh start _ _ => start
  | .ShortEvent start _ _ _ _ _ => start

/-- Recognises the items of the short-event branch. -/
def EventRecord.isShort : EventRecord → Bool
  | .FullTimestampRefresh _ _ _ => false
  | .ShortEvent _ _ _ _ _ _ => true

/-- Range assumed for the absent constant `MAX_EC_SIZE`: `MAX_EC_SIZE - 4` does
not wrap around as a `guint32`, and the constant fits in 32 bits. -/
def Consts.inRange (c : Consts) : Prop :=
  4 ≤ c.MAX_EC_SIZE ∧ c.MAX_EC_SIZE < 4294967296

instance (c : Consts) : Decidable c.inRange := by
  unfold Consts.inRange; infer_instance

/-- A number as a byte. -/
def toByte (x : Nat) : Fin 256 := ⟨x % 256, Nat.mod_lt x (by decide)⟩

/-- Four bytes holding `v` in big-endian order. -/
def be32_bytes (v : Nat) : tvbuff :=
  [toByte (v / 16777216), toByte (v / 65536), toByte (v / 256), toByte v]

/-- Encoder written from the layout table of the specification (there is no
encoder in the source): version byte with the padding bits clear, event count,
sequence number, eight (words, packets) pairs, timestamp halves; every
multi-byte field big-endian. -/
def spec_encode_header (h : Header) : tvbuff :=
  [toByte h.version, toByte h.num_events] ++ be32_bytes h.seq
    ++ (h.queue_sizes.flatMap fun q => be32_bytes q.1 ++ be32_bytes q.2)
    ++ be32_bytes h.ts_top ++ be32_bytes h.ts_btm

/-- Field values an encoded header can carry: the version fits the version
mask and one byte, the count one byte, eight queue pairs, every 32-bit field
below `2^32`. -/
def Header.fits (c : Consts) (h : Header) : Prop :=
  h.version &&& c.MASK_VERSION = h.version ∧ h.version < 256 ∧ h.num_events < 256
    ∧ h.seq < 4294967296 ∧ h.queue_sizes.length = 8
    ∧ (∀ q ∈ h.queue_sizes, q.1 < 4294967296 ∧ q.2 < 4294967296)
    ∧ h.ts_top < 4294967296 ∧ h.ts_btm < 4294967296

instance (c : Consts) (h : Header) : Decidable (h.fits c) := by
  unfold Header.fits; infer_instance

/-- Loop body as the specification words it (step 4e): identical to
`event_step` except that after a short record the running bottom half is
replaced by the merged value. -/
def spec_event_step (c : Consts) (tvb : tvbuff) (s : LoopState) : StepResult :=
  if s.offset ≤ u32_sub c.MAX_EC_SIZE 4 then
    match tvb_get_guint8 tvb s.offset with
    | none => .throw
    | some b =>
      let type := (b &&& 0xC0) >>> 6
      if type = c.TYPE_TIMESTAMP then
        if s.offset > u32_sub c.MAX_EC_SIZE 8 then .stop
        else
          match tvb_get_ntohl tvb s.offset with
          | none => .throw
          | some ts_top =>
            match tvb_get_ntohl tvb (u32_add s.offset 4) with
            | none => .throw
            | some ts_btm =>
              .emit (.FullTimestampRefresh s.offset ts_top ts_btm)
                ⟨u32_add s.offset 8, ts_top, ts_btm⟩
      else
        match tvb_get_ntohl tvb s.offset with
        | none => .throw
        | some word =>
          let queue_id := (word &&& c.MASK_QUEUE_ID) >>> 27
          let packet_len := (word &&& c.MASK_PACKET_LEN) >>> 19
          let ts_bottom_merged :=
            (s.ts_btm &&& u32_not c.MASK_TIME_LSB) ||| (word &&& c.MASK_TIME_LSB)
          .emit (.ShortEvent s.offset type queue_id packet_len s.ts_top ts_bottom_merged)
            ⟨u32_add s.offset 4, s.ts_top, ts_bottom_merged⟩
  else .stop

/-- The specified algorithm iterated, with the same iteration budget
convention as `event_loop`. -/
def spec_event_loop (c : Consts) (tvb : tvbuff) : Nat → LoopState → Trace
  | 0, s => ⟨[], s, .out_of_fuel⟩
  | fuel + 1, s =>
    match spec_event_step c tvb s with
    | .emit e s1 =>
      let r := spec_event_loop c tvb fuel s1
      ⟨e :: r.events, r.final, r.outcome⟩
    | .stop => ⟨[], s, .done⟩
    | .throw => ⟨[], s, .TooShort⟩

/-- The frame of the concrete scenario: version 1, event count `n`, sequence
number 42, all queue pairs zero, timestamp (0, 0); then the event region given
by `region`. -/
def scenario_frame (n : Fin 256) (region : tvbuff) : tvbuff :=
  [1, n, 0, 0, 0, 42] ++ List.replicate 64 0 ++ [0, 0, 0, 0, 0, 0, 0, 0] ++ region

/-- Event region of the scenario: the full-timestamp record (top 0, bottom 8)
followed by the four bytes of `word`. -/
def scenario_region (word : Nat) : tvbuff :=
  [0, 0, 0, 0, 0, 0, 0, 8] ++ be32_bytes word

/-- Header values written out in terms of the bytes of the buffer. -/
def headerAt (c : Consts) (tvb : tvbuff) : Header :=
  ⟨byteAt tvb 0 &&& c.MASK_VERSION, byteAt tvb 1, be32At tvb 2,
   [(be32At tvb 6, be32At tvb 10), (be32At tvb 14, be32At tvb 18),
    (be32At tvb 22, be32At tvb 26), (be32At tvb 30, be32At tvb 34),
    (be32At tvb 38, be32At tvb 42), (be32At tvb 46, be32At tvb 50),
    (be32At tvb 54, be32At tvb 58), (be32At tvb 62, be32At tvb 66)],
   be32At tvb 70, be32At tvb 74⟩

/-- Sample values for the absent constants, used to instantiate the theorems
at concrete inputs: a 6-bit version mask, queue id in bits 27-29, packet length
in bits 19-26, the low 19 bits for the timestamp fragment, tag 0 for a full
timestamp, and the given capture size. -/
def sample_consts (max_ec_size : Nat) : Consts :=
  ⟨0x3F, 0x38000000, 0x07F80000, 0x0007FFFF, 0, max_ec_size⟩

/-- The first `n` iterations of the event loop when each of them adds an
item: the items added and the state reached; `none` when one of the `n`
iterations leaves the loop or raises the exception. -/
def event_steps (c : Consts) (tvb : tvbuff) : Nat → LoopState → Option (List EventRecord × LoopState)
  | 0, s => some ([], s)
  | n + 1, s =>
    match event_step c tvb s with
    | .emit e s1 =>
      match event_steps c tvb n s1 with
      | some (es, s2) => some (e :: es, s2)
      | none => none
    | _ => none

/-- The short-event items of `n` consecutive 4-byte records starting at `off`,
in buffer order, all rendered against the running timestamp `(top, btm)`. -/
def shortEventsFrom (c : Consts) (tvb : tvbuff) (top btm : Nat) : Nat → Nat → List EventRecord
  | _, 0 => []
  | off, n + 1 => shortEventAt c tvb off top btm :: shortEventsFrom c tvb top btm (off + 4) n

/-! ## Accessor lemmas -/

theorem byteAt_lt (tvb : tvbuff) (i : Nat) : byteAt tvb i < 256 :=
  (tvb.getD i 0).isLt

theorem be32At_lt (tvb : tvbuff) (off : Nat) : be32At tvb off < 4294967296 := by
  have h0 := byteAt_lt tvb off
  have h1 := byteAt_lt tvb (off + 1)
  have h2 := byteAt_lt tvb (off + 2)
  have h3 := byteAt_lt tvb (off + 3)
  unfold be32At
  omega

theorem tvb_get_guint8_eq (tvb : tvbuff) (i : Nat) (h : i < tvb.length) :
    tvb_get_guint8 tvb i = some (byteAt tvb i) := by
  simp [tvb_get_guint8, byteAt, List.getD, List.getElem?_eq_getElem h]

theorem tvb_get_guint8_none (tvb : tvbuff) (i : Nat) (h : tvb.length ≤ i) :
    tvb_get_guint8 tvb i = none := by
  simp [tvb_get_guint8, List.getElem?_eq_none h]

theorem tvb_get_ntohl_eq (tvb : tvbuff) (off : Nat) (h : off + 4 ≤ tvb.length) :
    tvb_get_ntohl tvb off = some (be32At tvb off) := by
  simp [tvb_get_ntohl, be32At, tvb_get_guint8_eq tvb off (by omega),
    tvb_get_guint8_eq tvb (off + 1) (by omega), tvb_get_guint8_eq tvb (off + 2) (by omega),
    tvb_get_guint8_eq tvb (off + 3) (by omega)]

theorem tvb_get_ntohl_none (tvb : tvbuff) (off : Nat) (h : tvb.length < off + 4) :
    tvb_get_ntohl tvb off = none := by
  unfold tvb_get_ntohl
  rw [tvb_get_guint8_none tvb (off + 3) (by omega)]
  split <;> simp_all

theorem tvb_get_guint8_some (tvb : tvbuff) (i b : Nat) (h : tvb_get_guint8 tvb i = some b) :
    i < tvb.length ∧ b = byteAt tvb i := by
  by_cases hi : i < tvb.length
  · rw [tvb_get_guint8_eq tvb i hi] at h
    exact ⟨hi, (Option.some.inj h).symm⟩
  · rw [tvb_get_guint8_none tvb i (by omega)] at h
    cases h

theorem tvb_get_ntohl_some (tvb : tvbuff) (off v : Nat) (h : tvb_get_ntohl tvb off = some v) :
    off + 4 ≤ tvb.length ∧ v = be32At tvb off := by
  by_cases hi : off + 4 ≤ tvb.length
  · rw [tvb_get_ntohl_eq tvb off hi] at h
    exact ⟨hi, (Option.some.inj h).symm⟩
  · rw [tvb_get_ntohl_none tvb off (by omega)] at h
    cases h

theorem u32_sub_eq (a b : Nat) (hb : b ≤ a) (ha : a < 4294967296) : u32_sub a b = a - b := by
  unfold u32_sub
  omega

theorem u32_add_eq (a b : Nat) (h : a + b < 4294967296) : u32_add a b = a + b := by
  unfold u32_add
  omega

/-! ## One iteration of the event loop -/

theorem event_step_short (c : Consts) (tvb : tvbuff) (s : LoopState)
    (hmax : c.MAX_EC_SIZE < 4294967296) (hb : s.offset + 4 ≤ c.MAX_EC_SIZE)
    (hlen : s.offset + 4 ≤ tvb.length) (htag : tagAt tvb s.offset ≠ c.TYPE_TIMESTAMP) :
    event_step c tvb s
      = .emit (shortEventAt c tvb s.offset s.ts_top s.ts_btm)
          ⟨s.offset + 4, s.ts_top, s.ts_btm⟩ := by
  have h1 : s.offset ≤ u32_sub c.MAX_EC_SIZE 4 := by
    rw [u32_sub_eq _ _ (by omega) hmax]; omega
  have h2 : u32_add s.offset 4 = s.offset + 4 := u32_add_eq _ _ (by omega)
  unfold tagAt at htag
  simp [event_step, h1, h2, tvb_get_guint8_eq tvb s.offset (by omega),
    tvb_get_ntohl_eq tvb s.offset hlen, htag, shortEventAt, tagAt]

theorem event_step_full (c : Consts) (tvb : tvbuff) (s : LoopState)
    (hmax : c.MAX_EC_SIZE < 4294967296) (hb : s.offset + 8 ≤ c.MAX_EC_SIZE)
    (hlen : s.offset + 8 ≤ tvb.length) (htag : tagAt tvb s.offset = c.TYPE_TIMESTAMP) :
    event_step c tvb s
      = .emit (.FullTimestampRefresh s.offset (be32At tvb s.offset) (be32At tvb (s.offset + 4)))
          ⟨s.offset + 8, be32At tvb s.offset, be32At tvb (s.offset + 4)⟩ := by
  have h1 : s.offset ≤ u32_sub c.MAX_EC_SIZE 4 := by
    rw [u32_sub_eq _ _ (by omega) hmax]; omega
  have h2 : ¬ (s.offset > u32_sub c.MAX_EC_SIZE 8) := by
    rw [u32_sub_eq _ _ (by omega) hmax]; omega
  have h3 : u32_add s.offset 4 = s.offset + 4 := u32_add_eq _ _ (by omega)
  have h4 : u32_add s.offset 8 = s.offset + 8 := u32_add_eq _ _ (by omega)
  unfold tagAt at htag
  simp [event_step, h1, h2, h3, h4, tvb_get_guint8_eq tvb s.offset (by omega),
    tvb_get_ntohl_eq tvb s.offset (by omega), tvb_get_ntohl_eq tvb (s.offset + 4) (by omega), htag]

theorem event_step_past_bound (c : Consts) (tvb : tvbuff) (s : LoopState) (hc : c.inRange)
    (hb : c.MAX_EC_SIZE < s.offset + 4) : event_step c tvb s = .stop := by
  obtain ⟨h4, hmax⟩ := hc
  have h1 : ¬ (s.offset ≤ u32_sub c.MAX_EC_SIZE 4) := by
    rw [u32_sub_eq _ _ h4 hmax]; omega
  simp [event_step, h1]

theorem event_step_incomplete_full (c : Consts) (tvb : tvbuff) (s : LoopState)
    (hmax : c.MAX_EC_SIZE < 4294967296) (h8 : 8 ≤ c.MAX_EC_SIZE)
    (hb : s.offset + 4 ≤ c.MAX_EC_SIZE) (hb8 : c.MAX_EC_SIZE < s.offset + 8)
    (hlen : s.offset < tvb.length) (htag : tagAt tvb s.offset = c.TYPE_TIMESTAMP) :
    event_step c tvb s = .stop := by
  have h1 : s.offset ≤ u32_sub c.MAX_EC_SIZE 4 := by
    rw [u32_sub_eq _ _ (by omega) hmax]; omega
  have h2 : s.offset > u32_sub c.MAX_EC_SIZE 8 := by
    rw [u32_sub_eq _ _ h8 hmax]; omega
  unfold tagAt at htag
  simp [event_step, h1, h2, tvb_get_guint8_eq tvb s.offset hlen, htag]

theorem event_step_full_truncated (c : Consts) (tvb : tvbuff) (s : LoopState)
    (hmax : c.MAX_EC_SIZE < 4294967296) (hb : s.offset + 8 ≤ c.MAX_EC_SIZE)
    (hlen : s.offset < tvb.length) (hlen8 : tvb.length < s.offset + 8)
    (htag : tagAt tvb s.offset = c.TYPE_TIMESTAMP) :
    event_step c tvb s = .throw := by
  have h1 : s.offset ≤ u32_sub c.MAX_EC_SIZE 4 := by
    rw [u32_sub_eq _ _ (by omega) hmax]; omega
  have h2 : ¬ (s.offset > u32_sub c.MAX_EC_SIZE 8) := by
    rw [u32_sub_eq _ _ (by omega) hmax]; omega
  have h3 : u32_add s.offset 4 = s.offset + 4 := u32_add_eq _ _ (by omega)
  unfold tagAt at htag
  have h4 : tvb_get_ntohl tvb (s.offset + 4) = none := tvb_get_ntohl_none tvb _ (by omega)
  simp only [event_step, h1, h2, h3, h4, tvb_get_guint8_eq tvb s.offset hlen, htag, if_true,
    if_false]
  split <;> rfl

theorem event_step_read_fails (c : Consts) (tvb : tvbuff) (s : LoopState) (hc : c.inRange)
    (hb : s.offset + 4 ≤ c.MAX_EC_SIZE) (hlen : tvb.length ≤ s.offset) :
    event_step c tvb s = .throw := by
  obtain ⟨h4, hmax⟩ := hc
  have h1 : s.offset ≤ u32_sub c.MAX_EC_SIZE 4 := by
    rw [u32_sub_eq _ _ h4 hmax]; omega
  simp [event_step, h1, tvb_get_guint8_none tvb s.offset hlen]

/-- What an emitting iteration looks like, read off the code. -/
theorem event_step_emit_cases (c : Consts) (tvb : tvbuff) (s s1 : LoopState) (e : EventRecord)
    (h : event_step c tvb s = .emit e s1) :
    s.offset ≤ u32_sub c.MAX_EC_SIZE 4 ∧ s.offset < tvb.length ∧
    ((tagAt tvb s.offset = c.TYPE_TIMESTAMP ∧ s.offset ≤ u32_sub c.MAX_EC_SIZE 8
        ∧ s.offset + 4 ≤ tvb.length ∧ u32_add s.offset 4 + 4 ≤ tvb.length
        ∧ e = .FullTimestampRefresh s.offset (be32At tvb s.offset)
                (be32At tvb (u32_add s.offset 4))
        ∧ s1 = ⟨u32_add s.offset 8, be32At tvb s.offset, be32At tvb (u32_add s.offset 4)⟩)
     ∨ (tagAt tvb s.offset ≠ c.TYPE_TIMESTAMP ∧ s.offset + 4 ≤ tvb.length
        ∧ e = shortEventAt c tvb s.offset s.ts_top s.ts_btm
        ∧ s1 = ⟨u32_add s.offset 4, s.ts_top, s.ts_btm⟩)) := by
  unfold event_step at h
  split at h
  · rename_i hle
    split at h
    · cases h
    · rename_i b hb
      obtain ⟨hlt, rfl⟩ := tvb_get_guint8_some tvb _ _ hb
      refine ⟨hle, hlt, ?_⟩
      simp only at h
      split at h
      · rename_i htag
        split at h
        · cases h
        · rename_i hgt
          split at h
          · cases h
          · rename_i t ht
            obtain ⟨hl4, rfl⟩ := tvb_get_ntohl_some tvb _ _ ht
            split at h
            · cases h
            · rename_i b2 hb2
              obtain ⟨hl8, rfl⟩ := tvb_get_ntohl_some tvb _ _ hb2
              left
              injection h with he hs
              exact ⟨htag, by omega, hl4, hl8, he.symm, hs.symm⟩
      · rename_i htag
        split at h
        · cases h
        · rename_i v hv
          obtain ⟨hl4, rfl⟩ := tvb_get_ntohl_some tvb _ _ hv
          right
          injection h with he hs
          exact ⟨htag, hl4, he.symm, hs.symm⟩
  · cases h

/-! ## Running the loop -/

theorem event_loop_emit (c : Consts) (tvb : tvbuff) (fuel : Nat) (s s1 : LoopState)
    (e : EventRecord) (h : event_step c tvb s = .emit e s1) :
    event_loop c tvb (fuel + 1) s
      = ⟨e :: (event_loop c tvb fuel s1).events, (event_loop c tvb fuel s1).final,
          (event_loop c tvb fuel s1).outcome⟩ := by
  simp [event_loop, h]

theorem event_loop_stop (c : Consts) (tvb : tvbuff) (fuel : Nat) (s : LoopState)
    (h : event_step c tvb s = .stop) : event_loop c tvb (fuel + 1) s = ⟨[], s, .done⟩ := by
  simp [event_loop, h]

theorem event_loop_throw (c : Consts) (tvb : tvbuff) (fuel : Nat) (s : LoopState)
    (h : event_step c tvb s = .throw) : event_loop c tvb (fuel + 1) s = ⟨[], s, .TooShort⟩ := by
  simp [event_loop, h]

/-- An emitting iteration started at an offset of at least 4 advances the
offset by the size of the record and stays within `MAX_EC_SIZE`. -/
theorem event_step_emit_advance (c : Consts) (tvb : tvbuff) (s s1 : LoopState) (e : EventRecord)
    (hc : c.inRange) (h4 : 4 ≤ s.offset) (h : event_step c tvb s = .emit e s1) :
    e.start = s.offset ∧ s1.offset = s.offset + e.size ∧ s1.offset ≤ c.MAX_EC_SIZE
      ∧ s.offset + e.size ≤ tvb.length + 4 := by
  obtain ⟨hc4, hmax⟩ := hc
  obtain ⟨hle, hlt, hcase⟩ := event_step_emit_cases c tvb s s1 e h
  rw [u32_sub_eq _ _ hc4 hmax] at hle
  rcases hcase with ⟨-, hle8, hl4, -, rfl, rfl⟩ | ⟨-, hl4, rfl, rfl⟩
  · rw [u32_sub_eq _ _ (by omega) hmax] at hle8
    rw [u32_add_eq s.offset 8 (by omega), u32_add_eq s.offset 4 (by omega)]
    exact ⟨rfl, rfl, by show s.offset + 8 ≤ _; omega, by show s.offset + 8 ≤ _; omega⟩
  · rw [u32_add_eq s.offset 4 (by omega)]
    exact ⟨rfl, rfl, by show s.offset + 4 ≤ _; omega, by show s.offset + 4 ≤ _; omega⟩

theorem event_loop_bounded (c : Consts) (tvb : tvbuff) (hc : c.inRange) :
    ∀ (fuel : Nat) (s : LoopState), 4 ≤ s.offset → (c.MAX_EC_SIZE - s.offset) / 4 < fuel →
      (event_loop c tvb fuel s).outcome ≠ .out_of_fuel
      ∧ (event_loop c tvb fuel s).events.length ≤ (c.MAX_EC_SIZE - s.offset) / 4
      ∧ (∀ e ∈ (event_loop c tvb fuel s).events,
          s.offset ≤ e.start ∧ e.start + e.size ≤ c.MAX_EC_SIZE)
      ∧ (event_loop c tvb fuel s).events.Pairwise (fun a b => a.start + a.size ≤ b.start)
      ∧ (∀ fuel2, fuel ≤ fuel2 → event_loop c tvb fuel2 s = event_loop c tvb fuel s) := by
  intro fuel
  induction fuel with
  | zero => intro s _ h; omega
  | succ n ih =>
    intro s h4 hfuel
    cases hstep : event_step c tvb s with
    | stop =>
      rw [event_loop_stop c tvb n s hstep]
      refine ⟨by simp, by simp, by simp, by simp, ?_⟩
      intro fuel2 hf
      obtain ⟨m, rfl⟩ : ∃ m, fuel2 = m + 1 := ⟨fuel2 - 1, by omega⟩
      exact event_loop_stop c tvb m s hstep
    | throw =>
      rw [event_loop_throw c tvb n s hstep]
      refine ⟨by simp, by simp, by simp, by simp, ?_⟩
      intro fuel2 hf
      obtain ⟨m, rfl⟩ : ∃ m, fuel2 = m + 1 := ⟨fuel2 - 1, by omega⟩
      exact event_loop_throw c tvb m s hstep
    | emit e s1 =>
      obtain ⟨hst, hoff, hle, -⟩ := event_step_emit_advance c tvb s s1 e hc h4 hstep
      have hsz : e.size = 4 ∨ e.size = 8 := by cases e <;> simp [EventRecord.size]
      obtain ⟨i1, i2, i3, i4, i5⟩ := ih s1 (by omega) (by omega)
      rw [event_loop_emit c tvb n s s1 e hstep]
      refine ⟨i1, ?_, ?_, ?_, ?_⟩
      · simp only [List.length_cons]; omega
      · intro x hx
        rcases List.mem_cons.1 hx with rfl | hx
        · omega
        · have := i3 x hx; omega
      · refine List.pairwise_cons.2 ⟨?_, i4⟩
        intro x hx
        have := i3 x hx; omega
      · intro fuel2 hf
        obtain ⟨m, rfl⟩ : ∃ m, fuel2 = m + 1 := ⟨fuel2 - 1, by omega⟩
        rw [event_loop_emit c tvb m s s1 e hstep, i5 m (by omega)]

theorem event_loop_of_steps (c : Consts) (tvb : tvbuff) :
    ∀ (n : Nat) (s0 s : LoopState) (es : List EventRecord) (m : Nat),
      event_steps c tvb n s0 = some (es, s) →
      event_loop c tvb (n + m) s0
        = ⟨es ++ (event_loop c tvb m s).events, (event_loop c tvb m s).final,
            (event_loop c tvb m s).outcome⟩ := by
  intro n
  induction n with
  | zero =>
    intro s0 s es m h
    simp only [event_steps, Option.some.injEq, Prod.mk.injEq] at h
    obtain ⟨rfl, rfl⟩ := h
    simp
  | succ n ih =>
    intro s0 s es m h
    cases hstep : event_step c tvb s0 with
    | stop => simp [event_steps, hstep] at h
    | throw => simp [event_steps, hstep] at h
    | emit e s1 =>
      simp only [event_steps, hstep] at h
      cases hrest : event_steps c tvb n s1 with
      | none => simp [hrest] at h
      | some p =>
        obtain ⟨es1, s2⟩ := p
        simp only [hrest, Option.some.injEq, Prod.mk.injEq] at h
        obtain ⟨rfl, rfl⟩ := h
        have e1 : n + 1 + m = (n + m) + 1 := by omega
        rw [e1, event_loop_emit c tvb (n + m) s0 s1 e hstep, ih s1 s2 es1 m hrest]
        simp

theorem shortEventsFrom_length (c : Consts) (tvb : tvbuff) (top btm : Nat) :
    ∀ (n off : Nat), (shortEventsFrom c tvb top btm off n).length = n := by
  intro n
  induction n with
  | zero => intro off; simp [shortEventsFrom]
  | succ n ih => intro off; simp [shortEventsFrom, ih]

theorem shortEventsFrom_getElem (c : Consts) (tvb : tvbuff) (top btm : Nat) :
    ∀ (n off i : Nat), i < n →
      (shortEventsFrom c tvb top btm off n)[i]? = some (shortEventAt c tvb (off + 4 * i) top btm) := by
  intro n
  induction n with
  | zero => intro off i h; omega
  | succ n ih =>
    intro off i h
    cases i with
    | zero => simp [shortEventsFrom]
    | succ i =>
      simp only [shortEventsFrom, List.getElem?_cons_succ]
      rw [ih (off + 4) i (by omega)]
      have e1 : off + 4 + 4 * i = off + 4 * (i + 1) := by omega
      rw [e1]

theorem event_loop_short_records (c : Consts) (tvb : tvbuff) (top btm : Nat) (hc : c.inRange) :
    ∀ (n off fuel : Nat), off + 4 * n ≤ c.MAX_EC_SIZE → c.MAX_EC_SIZE < off + 4 * n + 4 →
      off + 4 * n ≤ tvb.length →
      (∀ i, i < n → tagAt tvb (off + 4 * i) ≠ c.TYPE_TIMESTAMP) → n < fuel →
      event_loop c tvb fuel ⟨off, top, btm⟩
        = ⟨shortEventsFrom c tvb top btm off n, ⟨off + 4 * n, top, btm⟩, .done⟩ := by
  intro n
  induction n with
  | zero =>
    intro off fuel h1 h2 _ _ hf
    obtain ⟨m, rfl⟩ : ∃ m, fuel = m + 1 := ⟨fuel - 1, by omega⟩
    rw [event_loop_stop c tvb m _ (event_step_past_bound c tvb _ hc (by simpa using h2))]
    simp [shortEventsFrom]
  | succ n ih =>
    intro off fuel h1 h2 h3 h4 hf
    obtain ⟨m, rfl⟩ : ∃ m, fuel = m + 1 := ⟨fuel - 1, by omega⟩
    have hstep := event_step_short c tvb ⟨off, top, btm⟩ hc.2 (by show off + 4 ≤ _; omega)
      (by show off + 4 ≤ _; omega) (by simpa using h4 0 (by omega))
    rw [event_loop_emit c tvb m _ _ _ hstep]
    have := ih (off + 4) m (by omega) (by omega) (by omega)
      (fun i hi => by
        have := h4 (i + 1) (by omega)
        have e1 : off + 4 + 4 * i = off + 4 * (i + 1) := by omega
        rw [e1]; exact this) (by omega)
    simp only at this
    rw [this]
    have e2 : off + 4 + 4 * n = off + 4 * (n + 1) := by omega
    simp [shortEventsFrom, e2]

/-- Short-event items emitted before the next full-timestamp record are all
rendered against the timestamp the run started with. -/
theorem short_run_uses_state (c : Consts) (tvb : tvbuff) :
    ∀ (fuel : Nat) (s : LoopState) (pre rest : List EventRecord),
      (event_loop c tvb fuel s).events = pre ++ rest →
      (∀ e ∈ pre, e.isShort = true) →
      ∀ e ∈ pre, e = shortEventAt c tvb e.start s.ts_top s.ts_btm := by
  intro fuel
  induction fuel with
  | zero =>
    intro s pre rest h _ e he
    simp only [event_loop] at h
    have : pre = [] := (List.append_eq_nil.1 h.symm).1
    subst this
    simp at he
  | succ n ih =>
    intro s pre rest h hs e he
    cases hstep : event_step c tvb s with
    | stop =>
      rw [event_loop_stop c tvb n s hstep] at h
      have : pre = [] := (List.append_eq_nil.1 h.symm).1
      subst this
      simp at he
    | throw =>
      rw [event_loop_throw c tvb n s hstep] at h
      have : pre = [] := (List.append_eq_nil.1 h.symm).1
      subst this
      simp at he
    | emit e1 s1 =>
      rw [event_loop_emit c tvb n s s1 e1 hstep] at h
      cases pre with
      | nil => simp at he
      | cons p pre1 =>
        simp only [List.cons_append, List.cons.injEq] at h
        obtain ⟨rfl, h⟩ := h
        obtain ⟨-, -, hcase⟩ := event_step_emit_cases c tvb s s1 e1 hstep
        have hshort := hs e1 (by simp)
        rcases hcase with ⟨-, -, -, -, rfl, -⟩ | ⟨-, -, rfl, rfl⟩
        · simp [EventRecord.isShort] at hshort
        · rcases List.mem_cons.1 he with rfl | he
          · rfl
          · exact ih _ pre1 rest h (fun x hx => hs x (by simp [hx])) e he

/-! ## Tag bits of a full-timestamp record -/

theorem tag_zero_byte_lt (b : Nat) (hb : b < 256) (h : (b &&& 0xC0) >>> 6 = 0) : b < 64 := by
  by_contra hn
  have h64 : 64 ≤ b := by omega
  interval_cases b <;> revert h <;> decide

theorem full_record_top_lt (c : Consts) (tvb : tvbuff) (s s1 : LoopState) (st t b : Nat)
    (h0 : c.TYPE_TIMESTAMP = 0)
    (h : event_step c tvb s = .emit (.FullTimestampRefresh st t b) s1) :
    t < 1073741824 := by
  obtain ⟨-, -, hcase⟩ := event_step_emit_cases c tvb s s1 _ h
  rcases hcase with ⟨htag, -, -, -, he, -⟩ | ⟨-, -, he, -⟩
  · injection he with _ ht _
    rw [h0] at htag
    have hlt := tag_zero_byte_lt (byteAt tvb s.offset) (byteAt_lt _ _) htag
    have h1 := byteAt_lt tvb (s.offset + 1)
    have h2 := byteAt_lt tvb (s.offset + 2)
    have h3 := byteAt_lt tvb (s.offset + 3)
    rw [ht]
    unfold be32At
    omega
  · simp [shortEventAt] at he

theorem event_loop_full_top_lt (c : Consts) (tvb : tvbuff) (h0 : c.TYPE_TIMESTAMP = 0) :
    ∀ (fuel : Nat) (s : LoopState) (st t b : Nat),
      EventRecord.FullTimestampRefresh st t b ∈ (event_loop c tvb fuel s).events →
      t < 1073741824 := by
  intro fuel
  induction fuel with
  | zero => intro s st t b h; simp [event_loop] at h
  | succ n ih =>
    intro s st t b h
    cases hstep : event_step c tvb s with
    | stop => rw [event_loop_stop c tvb n s hstep] at h; simp at h
    | throw => rw [event_loop_throw c tvb n s hstep] at h; simp at h
    | emit e s1 =>
      rw [event_loop_emit c tvb n s s1 e hstep] at h
      rcases List.mem_cons.1 h with rfl | h
      · exact full_record_top_lt c tvb s s1 st t b h0 hstep
      · exact ih s1 st t b h

theorem and_low30_eq (t : Nat) (h : t < 1073741824) : t &&& 0x3FFFFFFF = t := by
  have e : (0x3FFFFFFF : Nat) = 2 ^ 30 - 1 := by norm_num
  rw [e, Nat.and_pow_two_sub_one_eq_mod]
  exact Nat.mod_eq_of_lt (by norm_num; exact h)

/-! ## The source loop and the specified loop emit the same items -/

theorem merge_mask_absorb (x w m : Nat) :
    ((x &&& u32_not m) ||| (w &&& m)) &&& u32_not m = x &&& u32_not m := by
  apply Nat.eq_of_testBit_eq
  intro i
  have e : (4294967295 : Nat) = 2 ^ 32 - 1 := by norm_num
  simp only [u32_not, Nat.testBit_and, Nat.testBit_or, Nat.testBit_xor, e,
    Nat.testBit_two_pow_sub_one]
  have e2 : (4294967296 : Nat) = 2 ^ 32 := by norm_num
  rw [e2, Nat.testBit_mod_two_pow]
  by_cases hi : i < 32 <;> simp only [hi] <;>
    cases x.testBit i <;> cases w.testBit i <;> cases m.testBit i <;> simp

/-- States of the two loops correspond when they agree on the offset, on the
top half and on the bits of the bottom half outside `MASK_TIME_LSB`. -/
theorem spec_step_corresponds (c : Consts) (tvb : tvbuff) (s s2 : LoopState)
    (ho : s.offset = s2.offset) (ht : s.ts_top = s2.ts_top)
    (hb : s.ts_btm &&& u32_not c.MASK_TIME_LSB = s2.ts_btm &&& u32_not c.MASK_TIME_LSB) :
    (event_step c tvb s = .stop ∧ spec_event_step c tvb s2 = .stop)
    ∨ (event_step c tvb s = .throw ∧ spec_event_step c tvb s2 = .throw)
    ∨ ∃ e t t2, event_step c tvb s = .emit e t ∧ spec_event_step c tvb s2 = .emit e t2
        ∧ t.offset = t2.offset ∧ t.ts_top = t2.ts_top
        ∧ t.ts_btm &&& u32_not c.MASK_TIME_LSB = t2.ts_btm &&& u32_not c.MASK_TIME_LSB := by
  obtain ⟨off, top, btm⟩ := s
  obtain ⟨off2, top2, btm2⟩ := s2
  simp only at ho ht hb
  subst ho ht
  unfold event_step spec_event_step
  simp only
  split
  · split
    · simp
    · split
      · split
        · simp
        · split
          · simp
          · split
            · simp
            · exact Or.inr (Or.inr ⟨_, _, _, rfl, rfl, rfl, rfl, rfl⟩)
      · split
        · simp
        · rw [hb]
          refine Or.inr (Or.inr ⟨_, _, _, rfl, rfl, rfl, rfl, ?_⟩)
          simp only
          rw [merge_mask_absorb, hb]
  · simp

theorem spec_loop_corresponds (c : Consts) (tvb : tvbuff) :
    ∀ (fuel : Nat) (s s2 : LoopState), s.offset = s2.offset → s.ts_top = s2.ts_top →
      s.ts_btm &&& u32_not c.MASK_TIME_LSB = s2.ts_btm &&& u32_not c.MASK_TIME_LSB →
      (event_loop c tvb fuel s).events = (spec_event_loop c tvb fuel s2).events
      ∧ (event_loop c tvb fuel s).outcome = (spec_event_loop c tvb fuel s2).outcome
      ∧ (event_loop c tvb fuel s).final.offset = (spec_event_loop c tvb fuel s2).final.offset := by
  intro fuel
  induction fuel with
  | zero => intro s s2 ho _ _; simp [event_loop, spec_event_loop, ho]
  | succ n ih =>
    intro s s2 ho ht hb
    rcases spec_step_corresponds c tvb s s2 ho ht hb with ⟨h1, h2⟩ | ⟨h1, h2⟩ | ⟨e, t, t2, h1, h2, ro, rt, rb⟩
    · simp [event_loop, spec_event_loop, h1, h2, ho]
    · simp [event_loop, spec_event_loop, h1, h2, ho]
    · obtain ⟨i1, i2, i3⟩ := ih t t2 ro rt rb
      simp [event_loop, spec_event_loop, h1, h2, i1, i2, i3]

/-! ## Header decoding -/

theorem dissect_header_eq (c : Consts) (tvb : tvbuff) (hlen : 78 ≤ tvb.length) :
    dissect_header c tvb = some (headerAt c tvb, 78) := by
  simp (disch := omega) [dissect_header, queue_loop, add_child, add_child_const,
    proto_tree_add_item, u32_add, tvb_get_guint8_eq, tvb_get_ntohl_eq, headerAt]

theorem dissect_header_none (c : Consts) (tvb : tvbuff) (hlen : tvb.length < 78) :
    dissect_header c tvb = none := by
  unfold dissect_header
  rw [tvb_get_ntohl_none tvb 74 (by omega)]
  split <;> simp_all

theorem headerAt_encode (c : Consts) (h : Header) (rest : tvbuff) (hf : h.fits c) :
    (spec_encode_header h).length = 78 ∧ headerAt c (spec_encode_header h ++ rest) = h := by
  obtain ⟨hv, hv8, hn, hs, hq, hqs, ht, hb⟩ := hf
  obtain ⟨version, num_events, seq, queues, ts_top, ts_btm⟩ := h
  simp only at hv hv8 hn hs hq hqs ht hb
  rcases queues with _ | ⟨⟨w0, p0⟩, _ | ⟨⟨w1, p1⟩, _ | ⟨⟨w2, p2⟩, _ | ⟨⟨w3, p3⟩, _ | ⟨⟨w4, p4⟩,
    _ | ⟨⟨w5, p5⟩, _ | ⟨⟨w6, p6⟩, _ | ⟨⟨w7, p7⟩, _ | ⟨q8, qs⟩⟩⟩⟩⟩⟩⟩⟩⟩ <;> simp at hq
  simp only [List.mem_cons, List.mem_singleton, List.not_mem_nil, or_false, forall_eq_or_imp,
    forall_eq] at hqs
  obtain ⟨⟨a0, b0⟩, ⟨a1, b1⟩, ⟨a2, b2⟩, ⟨a3, b3⟩, ⟨a4, b4⟩, ⟨a5, b5⟩, ⟨a6, b6⟩, ⟨a7, b7⟩⟩ := hqs
  constructor
  · simp [spec_encode_header, be32_bytes, List.flatMap]
  · simp [headerAt, spec_encode_header, be32_bytes, byteAt, be32At, toByte, List.getD,
      List.flatMap]
    rw [Nat.mod_eq_of_lt hv8]
    refine And.intro hv (And.intro hn ?_)
    clear hv hn hv8 hq
    repeat' constructor
    all_goals omega

/-- C1: for every buffer of at least 78 bytes the header decoding succeeds and
returns version = byte 0 masked with `MASK_VERSION`, num_events = byte 1, seq =
the big-endian word at offset 2, for each i below 8 the queue pair made of the
big-endian words at offsets 6 + 8 i and 10 + 8 i, the timestamp halves from the
big-endian words at offsets 70 and 74, and the offset 78, which is where the
event loop is started; and decoding the encoding of any header whose fields fit
returns that header. -/
theorem header_fields_and_roundtrip (c : Consts) (tvb : tvbuff) (hlen : 78 ≤ tvb.length) :
    (∃ hdr : Header, dissect_header c tvb = some (hdr, 78)
      ∧ hdr.version = byteAt tvb 0 &&& c.MASK_VERSION
      ∧ hdr.num_events = byteAt tvb 1
      ∧ hdr.seq = be32At tvb 2
      ∧ hdr.queue_sizes.length = 8
      ∧ (∀ i, i < 8 →
          hdr.queue_sizes[i]? = some (be32At tvb (6 + 8 * i), be32At tvb (10 + 8 * i)))
      ∧ hdr.ts_top = be32At tvb 70 ∧ hdr.ts_btm = be32At tvb 74
      ∧ ∀ fuel, dissect_openflow c tvb fuel =
          ⟨some hdr, (event_loop c tvb fuel ⟨78, hdr.ts_top, hdr.ts_btm⟩).events,
            (event_loop c tvb fuel ⟨78, hdr.ts_top, hdr.ts_btm⟩).outcome⟩)
    ∧ (∀ (h : Header) (rest : tvbuff), h.fits c →
        dissect_header c (spec_encode_header h ++ rest) = some (h, 78)) := by
  constructor
  · refine ⟨headerAt c tvb, dissect_header_eq c tvb hlen, rfl, rfl, rfl, rfl, ?_, rfl, rfl, ?_⟩
    · intro i hi
      interval_cases i <;> rfl
    · intro fuel
      simp [dissect_openflow, dissect_header_eq c tvb hlen]
  · intro h rest hf
    obtain ⟨hl, he⟩ := headerAt_encode c h rest hf
    rw [dissect_header_eq c _ (by simp [hl]), he]

/-- Instance of C1 at an 80-byte buffer. -/
theorem header_fields_and_roundtrip_witness :
    78 ≤ (scenario_frame 2 [64, 0]).length
    ∧ ∃ hdr : Header,
        dissect_header (sample_consts 1500) (scenario_frame 2 [64, 0]) = some (hdr, 78)
        ∧ hdr.version = byteAt (scenario_frame 2 [64, 0]) 0 &&& (sample_consts 1500).MASK_VERSION
        ∧ hdr.num_events = byteAt (scenario_frame 2 [64, 0]) 1
        ∧ hdr.seq = be32At (scenario_frame 2 [64, 0]) 2 := by
  obtain ⟨⟨hdr, h, hv, hn, hs, -⟩, -⟩ :=
    header_fields_and_roundtrip (sample_consts 1500) (scenario_frame 2 [64, 0]) (by decide)
  exact ⟨by decide, hdr, h, hv, hn, hs⟩

/-- C2: on a buffer shorter than 78 bytes the header decoding fails, the
dissection ends with `TooShort` and no event item is produced; on a buffer of
78 bytes or more the header decoding does not fail. -/
theorem header_too_short_iff (c : Consts) (tvb : tvbuff) :
    (tvb.length < 78 →
      dissect_header c tvb = none
      ∧ ∀ fuel, dissect_openflow c tvb fuel = ⟨none, [], .TooShort⟩)
    ∧ (78 ≤ tvb.length →
      (dissect_header c tvb).isSome = true
      ∧ ∀ fuel, ((dissect_openflow c tvb fuel).header).isSome = true) := by
  constructor
  · intro h
    refine ⟨dissect_header_none c tvb h, fun fuel => ?_⟩
    simp [dissect_openflow, dissect_header_none c tvb h]
  · intro h
    refine ⟨by simp [dissect_header_eq c tvb h], fun fuel => ?_⟩
    simp [dissect_openflow, dissect_header_eq c tvb h]

/-- Instance of C2 at the empty buffer and at a 78-byte buffer. -/
theorem header_too_short_iff_witness :
    dissect_openflow (sample_consts 1500) [] 5 = ⟨none, [], .TooShort⟩
    ∧ (dissect_header (sample_consts 1500) (scenario_frame 0 [])).isSome = true :=
  ⟨((header_too_short_iff (sample_consts 1500) []).1 (by decide)).2 5,
   ((header_too_short_iff (sample_consts 1500) (scenario_frame 0 [])).2 (by decide)).1⟩

/-! ## Short records -/

theorem u32_not_testBit (m i : Nat) :
    (u32_not m).testBit i = (decide (i < 32) && !m.testBit i) := by
  have e : (4294967295 : Nat) = 2 ^ 32 - 1 := by norm_num
  have e2 : (4294967296 : Nat) = 2 ^ 32 := by norm_num
  simp only [u32_not, Nat.testBit_xor, e, Nat.testBit_two_pow_sub_one]
  rw [e2, Nat.testBit_mod_two_pow]
  by_cases hi : i < 32 <;> simp only [hi] <;> cases m.testBit i <;> simp

/-- C3: with running timestamp (top, btm), a 4-byte record at an offset that
is within the loop bound and within the buffer, whose 2-bit tag is not the
full-timestamp tag, makes the loop add a short event with queue_id = (word and
MASK_QUEUE_ID) shifted right by 27, packet_len = (word and MASK_PACKET_LEN)
shifted right by 19, timestamp top = top and timestamp bottom = (btm and not
MASK_TIME_LSB) or (word and MASK_TIME_LSB), where word is the big-endian word
at the offset and the complement is the 32-bit one; the offset advances by 4. -/
theorem short_record_step (c : Consts) (tvb : tvbuff) (off top btm : Nat)
    (hmax : c.MAX_EC_SIZE < 4294967296) (hb : off + 4 ≤ c.MAX_EC_SIZE)
    (hlen : off + 4 ≤ tvb.length)
    (htag : (byteAt tvb off &&& 0xC0) >>> 6 ≠ c.TYPE_TIMESTAMP) :
    event_step c tvb ⟨off, top, btm⟩
      = .emit (.ShortEvent off ((byteAt tvb off &&& 0xC0) >>> 6)
                ((be32At tvb off &&& c.MASK_QUEUE_ID) >>> 27)
                ((be32At tvb off &&& c.MASK_PACKET_LEN) >>> 19)
                top
                ((btm &&& u32_not c.MASK_TIME_LSB) ||| (be32At tvb off &&& c.MASK_TIME_LSB)))
          ⟨off + 4, top, btm⟩
    ∧ (∀ fuel, (event_loop c tvb (fuel + 1) ⟨off, top, btm⟩).events
        = .ShortEvent off ((byteAt tvb off &&& 0xC0) >>> 6)
            ((be32At tvb off &&& c.MASK_QUEUE_ID) >>> 27)
            ((be32At tvb off &&& c.MASK_PACKET_LEN) >>> 19)
            top
            ((btm &&& u32_not c.MASK_TIME_LSB) ||| (be32At tvb off &&& c.MASK_TIME_LSB))
          :: (event_loop c tvb fuel ⟨off + 4, top, btm⟩).events)
    ∧ (∀ i, (u32_not c.MASK_TIME_LSB).testBit i
        = (decide (i < 32) && !(c.MASK_TIME_LSB).testBit i)) := by
  have hstep := event_step_short c tvb ⟨off, top, btm⟩ hmax hb hlen htag
  refine ⟨hstep, fun fuel => ?_, u32_not_testBit _⟩
  rw [event_loop_emit c tvb fuel _ _ _ hstep]
  rfl

/-- Instance of C3: the record 0x5A000005 at offset 86 with running timestamp
(0, 8). -/
theorem short_record_step_witness :
    event_step (sample_consts 90) (scenario_frame 2 (scenario_region 0x5A000005)) ⟨86, 0, 8⟩
      = .emit (.ShortEvent 86 1 3 64 0 5) ⟨90, 0, 8⟩ :=
  (short_record_step (sample_consts 90) (scenario_frame 2 (scenario_region 0x5A000005)) 86 0 8
    (by decide) (by decide) (by decide) (by decide)).1.trans (by decide)

/-! ## Full-timestamp records -/

theorem event_step_full_78 (c : Consts) (tvb : tvbuff)
    (hmax : c.MAX_EC_SIZE < 4294967296) (hb : 86 ≤ c.MAX_EC_SIZE) (hlen : 86 ≤ tvb.length)
    (htag : (byteAt tvb 78 &&& 0xC0) >>> 6 = c.TYPE_TIMESTAMP) (t b : Nat) :
    event_step c tvb ⟨78, t, b⟩
      = .emit (.FullTimestampRefresh 78 (be32At tvb 78) (be32At tvb 82))
          ⟨86, be32At tvb 78, be32At tvb 82⟩ := by
  have h := event_step_full c tvb ⟨78, t, b⟩ hmax (by show 78 + 8 ≤ _; omega)
    (by show 78 + 8 ≤ _; omega) htag
  simpa using h

theorem dissect_openflow_eq (c : Consts) (tvb : tvbuff) (fuel : Nat) (hlen : 78 ≤ tvb.length) :
    dissect_openflow c tvb fuel
      = ⟨some (headerAt c tvb), (event_loop c tvb fuel ⟨78, be32At tvb 70, be32At tvb 74⟩).events,
          (event_loop c tvb fuel ⟨78, be32At tvb 70, be32At tvb 74⟩).outcome⟩ := by
  unfold dissect_openflow
  rw [dissect_header_eq c tvb hlen]
  rfl

/-- C4: when the event region starts with a complete 8-byte record carrying the
full-timestamp tag, the loop adds exactly one full-timestamp item for it, with
top = the big-endian word at offset 78 and bottom = the one at offset 82, moves
the offset to 86, and every short event that follows before the next
full-timestamp item is rendered against this (top, bottom) pair, whatever the
header timestamp (top0, btm0) was. -/
theorem full_record_at_region_start (c : Consts) (tvb : tvbuff)
    (hmax : c.MAX_EC_SIZE < 4294967296) (hb : 86 ≤ c.MAX_EC_SIZE) (hlen : 86 ≤ tvb.length)
    (htag : (byteAt tvb 78 &&& 0xC0) >>> 6 = c.TYPE_TIMESTAMP) (top0 btm0 fuel : Nat) :
    event_step c tvb ⟨78, top0, btm0⟩
      = .emit (.FullTimestampRefresh 78 (be32At tvb 78) (be32At tvb 82))
          ⟨86, be32At tvb 78, be32At tvb 82⟩
    ∧ (dissect_openflow c tvb (fuel + 1)).events
      = .FullTimestampRefresh 78 (be32At tvb 78) (be32At tvb 82)
          :: (event_loop c tvb fuel ⟨86, be32At tvb 78, be32At tvb 82⟩).events
    ∧ (∀ pre rest : List EventRecord,
        (event_loop c tvb fuel ⟨86, be32At tvb 78, be32At tvb 82⟩).events = pre ++ rest →
        (∀ e ∈ pre, e.isShort = true) →
        ∀ e ∈ pre, e = shortEventAt c tvb e.start (be32At tvb 78) (be32At tvb 82)) := by
  have hstep := event_step_full_78 c tvb hmax hb hlen htag
  refine ⟨hstep _ _, ?_, ?_⟩
  · rw [dissect_openflow_eq c tvb (fuel + 1) (by omega),
      event_loop_emit c tvb fuel _ _ _ (hstep (be32At tvb 70) (be32At tvb 74))]
  · intro pre rest h hs e he
    exact short_run_uses_state c tvb fuel ⟨86, be32At tvb 78, be32At tvb 82⟩ pre rest h hs e he

/-- Instance of C4: the scenario frame, whose region starts with the record
(top 0, bottom 8). -/
theorem full_record_at_region_start_witness :
    (dissect_openflow (sample_consts 90) (scenario_frame 2 (scenario_region 0x5A000005)) 3).events
      = [.FullTimestampRefresh 78 0 8, .ShortEvent 86 1 3 64 0 5] :=
  (full_record_at_region_start (sample_consts 90)
    (scenario_frame 2 (scenario_region 0x5A000005)) (by decide) (by decide) (by decide)
    (by decide) 0 0 2).2.1.trans (by decide)

/-- C9: when the full-timestamp tag is 0, every full-timestamp item the
dissector adds has a top half below 2^30, so masking it with 0x3FFFFFFF leaves
it unchanged. -/
theorem full_timestamp_top_bits_zero (c : Consts) (tvb : tvbuff) (fuel : Nat)
    (h0 : c.TYPE_TIMESTAMP = 0) (st t b : Nat)
    (hmem : EventRecord.FullTimestampRefresh st t b ∈ (dissect_openflow c tvb fuel).events) :
    t < 2 ^ 30 ∧ t &&& 0x3FFFFFFF = t := by
  have hlt : t < 1073741824 := by
    unfold dissect_openflow at hmem
    split at hmem
    · simp at hmem
    · exact event_loop_full_top_lt c tvb h0 fuel _ st t b hmem
  exact ⟨by norm_num; exact hlt, and_low30_eq t hlt⟩

/-- Instance of C9 at the full-timestamp item of the scenario frame. -/
theorem full_timestamp_top_bits_zero_witness : (0 : Nat) < 2 ^ 30 ∧ 0 &&& 0x3FFFFFFF = 0 :=
  full_timestamp_top_bits_zero (sample_consts 90) (scenario_frame 2 (scenario_region 0x5A000005))
    3 rfl 78 0 8 (by decide)

/-! ## Termination and bounds -/

/-- C10: with the offset starting at 78, every iteration that adds an item
advances the offset by the size of the record (4 for a short event, 8 for a
full timestamp) and leaves it at most `MAX_EC_SIZE`; any budget above
(MAX_EC_SIZE - 78) / 4 iterations lets the loop finish, with at most
(MAX_EC_SIZE - 78) / 4 items (none when MAX_EC_SIZE - 78 < 4), each lying
between offset 78 and `MAX_EC_SIZE`, in increasing non-overlapping order; and a
larger budget produces nothing more. -/
theorem event_loop_terminates (c : Consts) (tvb : tvbuff) (top btm : Nat) (hc : c.inRange) :
    (∀ (s s1 : LoopState) (e : EventRecord), 78 ≤ s.offset →
        event_step c tvb s = .emit e s1 →
        (e.size = 4 ∨ e.size = 8) ∧ e.start = s.offset ∧ s1.offset = s.offset + e.size
          ∧ s.offset < s1.offset ∧ s1.offset ≤ c.MAX_EC_SIZE)
    ∧ (∀ fuel, (c.MAX_EC_SIZE - 78) / 4 < fuel →
        (event_loop c tvb fuel ⟨78, top, btm⟩).outcome ≠ .out_of_fuel
        ∧ (event_loop c tvb fuel ⟨78, top, btm⟩).events.length ≤ (c.MAX_EC_SIZE - 78) / 4
        ∧ (c.MAX_EC_SIZE - 78 < 4 → (event_loop c tvb fuel ⟨78, top, btm⟩).events = [])
        ∧ (∀ e ∈ (event_loop c tvb fuel ⟨78, top, btm⟩).events,
            78 ≤ e.start ∧ e.start + e.size ≤ c.MAX_EC_SIZE)
        ∧ (event_loop c tvb fuel ⟨78, top, btm⟩).events.Pairwise
            (fun a b => a.start + a.size ≤ b.start)
        ∧ (∀ fuel2, fuel ≤ fuel2 →
            event_loop c tvb fuel2 ⟨78, top, btm⟩ = event_loop c tvb fuel ⟨78, top, btm⟩)) := by
  constructor
  · intro s s1 e hs hstep
    obtain ⟨h1, h2, h3, -⟩ := event_step_emit_advance c tvb s s1 e hc (by omega) hstep
    have hsz : e.size = 4 ∨ e.size = 8 := by cases e <;> simp [EventRecord.size]
    exact ⟨hsz, h1, h2, by omega, h3⟩
  · intro fuel hf
    obtain ⟨i1, i2, i3, i4, i5⟩ :=
      event_loop_bounded c tvb hc fuel ⟨78, top, btm⟩ (by show 4 ≤ 78; omega) hf
    refine ⟨i1, i2, ?_, i3, i4, i5⟩
    intro hsmall
    apply List.eq_nil_of_length_eq_zero
    have : (c.MAX_EC_SIZE - 78) / 4 = 0 := by omega
    have h2 := i2
    rw [this] at h2
    exact Nat.le_zero.1 h2

/-- Instance of C10: capture size 90 and the scenario frame. -/
theorem event_loop_terminates_witness :
    (event_loop (sample_consts 90) (scenario_frame 2 (scenario_region 0x5A000005)) 4
        ⟨78, 0, 0⟩).outcome ≠ .out_of_fuel
    ∧ (event_loop (sample_consts 90) (scenario_frame 2 (scenario_region 0x5A000005)) 4
        ⟨78, 0, 0⟩).events.length ≤ (90 - 78) / 4 :=
  ⟨((event_loop_terminates (sample_consts 90) (scenario_frame 2 (scenario_region 0x5A000005))
      0 0 (by decide)).2 4 (by decide)).1,
   ((event_loop_terminates (sample_consts 90) (scenario_frame 2 (scenario_region 0x5A000005))
      0 0 (by decide)).2 4 (by decide)).2.1⟩

/-! ## The specified loop -/

/-- C8: the source loop, which keeps `ts_btm` untouched after a short record,
and the specified loop, which stores the merged bottom half after every short
record, add the same items and end the same way, for every buffer, every
constants, every budget and every starting state; the specified step does
store the merged value (top unchanged) while the source step keeps the state;
and every short event added before the next full-timestamp item is determined
by its own record and the timestamp the run started with. -/
theorem source_loop_matches_spec_loop (c : Consts) (tvb : tvbuff) (fuel : Nat) (s : LoopState) :
    (event_loop c tvb fuel s).events = (spec_event_loop c tvb fuel s).events
    ∧ (event_loop c tvb fuel s).outcome = (spec_event_loop c tvb fuel s).outcome
    ∧ (∀ (e : EventRecord) (s1 : LoopState), e.isShort = true →
        spec_event_step c tvb s = .emit e s1 →
        ∃ st ty q p, e = .ShortEvent st ty q p s.ts_top s1.ts_btm ∧ s1.ts_top = s.ts_top
          ∧ s1.ts_btm = (s.ts_btm &&& u32_not c.MASK_TIME_LSB)
              ||| (be32At tvb s.offset &&& c.MASK_TIME_LSB))
    ∧ (∀ (e : EventRecord) (s1 : LoopState), e.isShort = true →
        event_step c tvb s = .emit e s1 → s1.ts_top = s.ts_top ∧ s1.ts_btm = s.ts_btm)
    ∧ (∀ pre rest : List EventRecord, (event_loop c tvb fuel s).events = pre ++ rest →
        (∀ e ∈ pre, e.isShort = true) →
        ∀ e ∈ pre, e = shortEventAt c tvb e.start s.ts_top s.ts_btm) := by
  obtain ⟨h1, h2, -⟩ := spec_loop_corresponds c tvb fuel s s rfl rfl rfl
  refine ⟨h1, h2, ?_, ?_, short_run_uses_state c tvb fuel s⟩
  · intro e s1 hshort hstep
    unfold spec_event_step at hstep
    split at hstep
    · split at hstep
      · cases hstep
      · simp only at hstep
        split at hstep
        · split at hstep
          · cases hstep
          · split at hstep
            · cases hstep
            · split at hstep
              · cases hstep
              · injection hstep with he hs
                subst he
                simp [EventRecord.isShort] at hshort
        · split at hstep
          · cases hstep
          · rename_i v hv
            obtain ⟨-, rfl⟩ := tvb_get_ntohl_some tvb _ _ hv
            injection hstep with he hs
            subst he hs
            exact ⟨_, _, _, _, rfl, rfl, rfl⟩
    · cases hstep
  · intro e s1 hshort hstep
    obtain ⟨-, -, hcase⟩ := event_step_emit_cases c tvb s s1 e hstep
    rcases hcase with ⟨-, -, -, -, rfl, -⟩ | ⟨-, -, -, rfl⟩
    · simp [EventRecord.isShort] at hshort
    · exact ⟨rfl, rfl⟩

/-! ## Where the loop stops -/

theorem scenario_frame_length (n : Fin 256) (region : tvbuff) :
    (scenario_frame n region).length = 78 + region.length := by
  simp [scenario_frame]
  omega

theorem event_loop_never_done_of_throw (c : Consts) (tvb : tvbuff) (s : LoopState)
    (h : event_step c tvb s = .throw) (fuel : Nat) :
    (event_loop c tvb fuel s).outcome ≠ .done := by
  cases fuel with
  | zero => simp [event_loop]
  | succ n => rw [event_loop_throw c tvb n s h]; simp

theorem event_loop_no_events_of_stop (c : Consts) (tvb : tvbuff) (s : LoopState)
    (h : event_step c tvb s = .stop) (fuel : Nat) :
    (event_loop c tvb fuel s).events = [] := by
  cases fuel with
  | zero => simp [event_loop]
  | succ n => rw [event_loop_stop c tvb n s h]

/-- C5 (as stated) fails: whatever the constants are, it is not the case that
every buffer whose event region holds N short records followed by k dangling
bytes, k at most 3, is decoded into N items with a normal end.  When the loop
bound admits offset 78, the 78-byte frame makes the loop read past the end of
the buffer; otherwise the 82-byte frame with one short record yields no item. -/
theorem stop_condition_is_not_buffer_length :
    ¬ ∃ c : Consts, ∀ (tvb : tvbuff) (N k : Nat), k ≤ 3 → tvb.length = 78 + 4 * N + k →
        (∀ i, i < N → tagAt tvb (78 + 4 * i) ≠ c.TYPE_TIMESTAMP) →
        ∃ fuel, (dissect_openflow c tvb fuel).outcome = .done
          ∧ (dissect_openflow c tvb fuel).events.length = N := by
  rintro ⟨c, h⟩
  by_cases hb : 78 ≤ u32_sub c.MAX_EC_SIZE 4
  · obtain ⟨fuel, hdone, -⟩ := h (scenario_frame 0 []) 0 0 (by omega) (by decide)
      (fun i hi => by omega)
    rw [dissect_openflow_eq c _ fuel (by decide)] at hdone
    have hstep : event_step c (scenario_frame 0 []) ⟨78, be32At (scenario_frame 0 []) 70,
        be32At (scenario_frame 0 []) 74⟩ = .throw := by
      have hnone : tvb_get_guint8 (scenario_frame 0 []) 78 = none :=
        tvb_get_guint8_none _ _ (by decide)
      simp only [event_step, hb, hnone, if_true]
    exact event_loop_never_done_of_throw c _ _ hstep fuel hdone
  · have hstop : ∀ (tvb : tvbuff) t b, event_step c tvb ⟨78, t, b⟩ = .stop := by
      intro tvb t b
      simp only [event_step, hb, if_false]
    by_cases ht : c.TYPE_TIMESTAMP = 1
    · obtain ⟨fuel, -, hlen⟩ := h (scenario_frame 0 [128, 0, 0, 0]) 1 0 (by omega) (by decide)
        (fun i hi => by
          have : i = 0 := by omega
          subst this
          rw [ht]
          decide)
      rw [dissect_openflow_eq c _ fuel (by decide),
        event_loop_no_events_of_stop c _ _ (hstop _ _ _) fuel] at hlen
      simp at hlen
    · obtain ⟨fuel, -, hlen⟩ := h (scenario_frame 0 [64, 0, 0, 0]) 1 0 (by omega) (by decide)
        (fun i hi => by
          have : i = 0 := by omega
          subst this
          have e : tagAt (scenario_frame 0 [64, 0, 0, 0]) (78 + 4 * 0) = 1 := by decide
          rw [e]
          exact fun h1 => ht h1.symm)
      rw [dissect_openflow_eq c _ fuel (by decide),
        event_loop_no_events_of_stop c _ _ (hstop _ _ _) fuel] at hlen
      simp at hlen

/-- C5 (amended): when `MAX_EC_SIZE` is 78 + 4 N + k with k at most 3, and the
buffer holds at least the 78 + 4 N bytes of the header and of N records none of
which carries the full-timestamp tag, the dissector adds exactly the N short
events of these records, in buffer order, all against the header timestamp,
and ends normally with the offset at 78 + 4 N; nothing past that offset is
read.  The loop is left as soon as the offset exceeds `MAX_EC_SIZE - 4`,
whatever the length of the buffer. -/
theorem short_records_up_to_capture_size (c : Consts) (tvb : tvbuff) (N k fuel : Nat)
    (hk : k ≤ 3) (hmax : c.MAX_EC_SIZE = 78 + 4 * N + k) (h32 : c.MAX_EC_SIZE < 4294967296)
    (hlen : 78 + 4 * N ≤ tvb.length)
    (htag : ∀ i, i < N → tagAt tvb (78 + 4 * i) ≠ c.TYPE_TIMESTAMP) (hf : N < fuel) :
    dissect_openflow c tvb fuel
      = ⟨some (headerAt c tvb),
          shortEventsFrom c tvb (be32At tvb 70) (be32At tvb 74) 78 N, .done⟩
    ∧ (dissect_openflow c tvb fuel).events.length = N
    ∧ (∀ i, i < N → (dissect_openflow c tvb fuel).events[i]?
        = some (shortEventAt c tvb (78 + 4 * i) (be32At tvb 70) (be32At tvb 74)))
    ∧ (event_loop c tvb fuel ⟨78, be32At tvb 70, be32At tvb 74⟩).final
        = ⟨78 + 4 * N, be32At tvb 70, be32At tvb 74⟩
    ∧ (∀ (buf : tvbuff) (s : LoopState), c.MAX_EC_SIZE < s.offset + 4 →
        event_step c buf s = .stop) := by
  have hc : c.inRange := ⟨by omega, h32⟩
  have hloop := event_loop_short_records c tvb (be32At tvb 70) (be32At tvb 74) hc N 78 fuel
    (by omega) (by omega) hlen htag hf
  have hd : dissect_openflow c tvb fuel
      = ⟨some (headerAt c tvb),
          shortEventsFrom c tvb (be32At tvb 70) (be32At tvb 74) 78 N, .done⟩ := by
    rw [dissect_openflow_eq c tvb fuel (by omega), hloop]
  refine ⟨hd, ?_, ?_, ?_, ?_⟩
  · rw [hd]; exact shortEventsFrom_length c tvb _ _ N 78
  · intro i hi
    rw [hd]; exact shortEventsFrom_getElem c tvb _ _ N 78 i hi
  · rw [hloop]
  · intro buf s hs
    exact event_step_past_bound c buf s hc hs

/-- Instance of the amended C5: capture size 84, one short record and two
dangling bytes. -/
theorem short_records_up_to_capture_size_witness :
    dissect_openflow (sample_consts 84) (scenario_frame 1 [0x5A, 0, 0, 5, 0xFF, 0xFF]) 2
      = ⟨some ⟨1, 1, 42, List.replicate 8 (0, 0), 0, 0⟩, [.ShortEvent 78 1 3 64 0 5], .done⟩ :=
  (short_records_up_to_capture_size (sample_consts 84)
    (scenario_frame 1 [0x5A, 0, 0, 5, 0xFF, 0xFF]) 1 2 2 (by decide) (by decide) (by decide)
    (by decide) (by decide) (by decide)).1.trans (by decide)

/-- C6 (as stated) fails: take the 82-byte frame whose event region is four
zero bytes, so that the first record carries tag 0 and only 4 bytes remain
before the end of the buffer.  Whenever the full-timestamp tag is 0 and
`MAX_EC_SIZE` is at least 86, the dissector does not end normally on it: the
second word of the record is read past the end of the buffer. -/
theorem incomplete_full_record_not_silent :
    ¬ ∃ c : Consts, c.TYPE_TIMESTAMP = 0 ∧ 86 ≤ c.MAX_EC_SIZE ∧ c.MAX_EC_SIZE < 4294967296
        ∧ ∃ fuel, (dissect_openflow c (scenario_frame 0 [0, 0, 0, 0]) fuel).outcome = .done := by
  rintro ⟨c, h0, hb, hmax, fuel, hdone⟩
  rw [dissect_openflow_eq c _ fuel (by decide)] at hdone
  have hstep := event_step_full_truncated c (scenario_frame 0 [0, 0, 0, 0])
    ⟨78, be32At (scenario_frame 0 [0, 0, 0, 0]) 70, be32At (scenario_frame 0 [0, 0, 0, 0]) 74⟩
    hmax (by show 78 + 8 ≤ _; omega) (by decide) (by decide) (by rw [h0]; decide)
  exact event_loop_never_done_of_throw c _ _ hstep fuel hdone

/-- C6 (amended): if, after n records have been decoded from the state s0 with
items es, the loop is at a state s whose offset is within the buffer, carries
the full-timestamp tag, and is at most `MAX_EC_SIZE - 4` but above
`MAX_EC_SIZE - 8`, then the iteration at s leaves the loop: the run from s0
adds exactly es, ends normally, and ends in the state s, so the running
timestamp is unchanged. -/
theorem incomplete_full_record_stops (c : Consts) (tvb : tvbuff) (n : Nat) (s0 s : LoopState)
    (es : List EventRecord) (hmax : c.MAX_EC_SIZE < 4294967296) (h8 : 8 ≤ c.MAX_EC_SIZE)
    (hreach : event_steps c tvb n s0 = some (es, s))
    (hb : s.offset + 4 ≤ c.MAX_EC_SIZE) (hb8 : c.MAX_EC_SIZE < s.offset + 8)
    (hlen : s.offset < tvb.length)
    (htag : (byteAt tvb s.offset &&& 0xC0) >>> 6 = c.TYPE_TIMESTAMP) :
    event_step c tvb s = .stop
    ∧ ∀ fuel, n < fuel → event_loop c tvb fuel s0 = ⟨es, s, .done⟩ := by
  have hstep := event_step_incomplete_full c tvb s hmax h8 hb hb8 hlen htag
  refine ⟨hstep, fun fuel hf => ?_⟩
  obtain ⟨m, rfl⟩ : ∃ m, fuel = n + (m + 1) := ⟨fuel - n - 1, by omega⟩
  rw [event_loop_of_steps c tvb n s0 s es (m + 1) hreach, event_loop_stop c tvb m s hstep]
  simp

/-- Instance of the amended C6: capture size 90 and the scenario frame, where
the record at offset 86 carries tag 0 and only four bytes are left. -/
theorem incomplete_full_record_stops_witness :
    event_loop (sample_consts 90) (scenario_frame 2 (scenario_region 0x1A000005)) 5 ⟨78, 0, 0⟩
      = ⟨[.FullTimestampRefresh 78 0 8], ⟨86, 0, 8⟩, .done⟩ :=
  (incomplete_full_record_stops (sample_consts 90)
    (scenario_frame 2 (scenario_region 0x1A000005)) 1 ⟨78, 0, 0⟩ ⟨86, 0, 8⟩
    [.FullTimestampRefresh 78 0 8] (by decide) (by decide) (by decide) (by decide) (by decide)
    (by decide) (by decide)).2 5 (by decide)

/-! ## The concrete scenario -/

theorem scenario_frame_byteAt (n : Fin 256) (region : tvbuff) (i : Nat) :
    byteAt (scenario_frame n region) (78 + i) = byteAt region i := by
  have h : scenario_frame n region
      = ([1, n, 0, 0, 0, 42] ++ List.replicate 64 0 ++ [0, 0, 0, 0, 0, 0, 0, 0]) ++ region := rfl
  have hl : ([1, n, 0, 0, 0, 42] ++ List.replicate 64 (0 : Fin 256)
      ++ [0, 0, 0, 0, 0, 0, 0, 0]).length = 78 := by simp
  unfold byteAt
  rw [h, List.getD_append_right _ _ _ _ (by omega), hl]
  congr 2
  omega

theorem scenario_frame_be32At (n : Fin 256) (region : tvbuff) (i : Nat) :
    be32At (scenario_frame n region) (78 + i) = be32At region i := by
  unfold be32At
  simp only [Nat.add_assoc, scenario_frame_byteAt]

theorem scenario_frame_tagAt (n : Fin 256) (region : tvbuff) (i : Nat) :
    tagAt (scenario_frame n region) (78 + i) = tagAt region i := by
  unfold tagAt
  rw [scenario_frame_byteAt]

theorem scenario_region_length (w : Nat) : (scenario_region w).length = 12 := rfl

/-- In the scenario frame with the word 0x1A000005, no iteration started at
offset 86 adds an item when the full-timestamp tag is 0. -/
theorem scenario_no_item_at_86 (c : Consts) (n : Fin 256) (h0 : c.TYPE_TIMESTAMP = 0)
    (fuel : Nat) (s : LoopState) (hs : s.offset = 86) :
    (event_loop c (scenario_frame n (scenario_region 0x1A000005)) fuel s).events = [] := by
  cases fuel with
  | zero => rfl
  | succ m =>
    cases hstep : event_step c (scenario_frame n (scenario_region 0x1A000005)) s with
    | stop => rw [event_loop_stop _ _ m s hstep]
    | throw => rw [event_loop_throw _ _ m s hstep]
    | emit e s1 =>
      exfalso
      obtain ⟨-, -, hcase⟩ := event_step_emit_cases _ _ s s1 e hstep
      rw [hs, scenario_frame_length, scenario_region_length] at hcase
      rcases hcase with ⟨-, -, -, hl, -, -⟩ | ⟨htag, -, -, -⟩
      · have : u32_add 86 4 = 90 := by decide
        omega
      · rw [h0, show (86 : Nat) = 78 + 8 from rfl, scenario_frame_tagAt] at htag
        exact htag (by decide)

/-- C7 (as stated) fails: with the full-timestamp tag equal to 0, the frame of
the scenario never yields a short event, whatever the other constants, the
event count byte and the iteration budget are: the first byte of the word
0x1A000005 is 0x1A, whose two top bits are 0, the full-timestamp tag. -/
theorem scenario_has_no_short_event :
    ¬ ∃ (c : Consts) (n : Fin 256) (fuel : Nat), c.TYPE_TIMESTAMP = 0
        ∧ ∃ e ∈ (dissect_openflow c (scenario_frame n (scenario_region 0x1A000005)) fuel).events,
            e.isShort = true := by
  rintro ⟨c, n, fuel, h0, e, he, hshort⟩
  rw [dissect_openflow_eq c _ fuel (by rw [scenario_frame_length, scenario_region_length]; omega)]
    at he
  simp only at he
  cases fuel with
  | zero => simp [event_loop] at he
  | succ m =>
    cases hstep : event_step c (scenario_frame n (scenario_region 0x1A000005))
        ⟨78, be32At (scenario_frame n (scenario_region 0x1A000005)) 70,
          be32At (scenario_frame n (scenario_region 0x1A000005)) 74⟩ with
    | stop => rw [event_loop_stop _ _ m _ hstep] at he; simp at he
    | throw => rw [event_loop_throw _ _ m _ hstep] at he; simp at he
    | emit e1 s1 =>
      rw [event_loop_emit _ _ m _ _ _ hstep] at he
      obtain ⟨-, -, hcase⟩ := event_step_emit_cases _ _ _ s1 e1 hstep
      rcases hcase with ⟨-, -, -, -, rfl, rfl⟩ | ⟨htag, -, -, -⟩
      · rw [scenario_no_item_at_86 c n h0 m _ (by show u32_add 78 8 = 86; decide)] at he
        simp only [List.mem_singleton] at he
        subst he
        simp [EventRecord.isShort] at hshort
      · simp only at htag
        rw [h0, show (78 : Nat) = 78 + 0 from rfl, scenario_frame_tagAt] at htag
        exact htag (by decide)
/-- What the loop does from offset 90 in a 90-byte frame: nothing is added. -/
theorem no_item_at_frame_end (c : Consts) (tvb : tvbuff) (hc : c.inRange)
    (hlen : tvb.length = 90) (fuel : Nat) (s : LoopState) (hs : s.offset = 90) :
    (event_loop c tvb fuel s).events = [] := by
  cases fuel with
  | zero => rfl
  | succ m =>
    by_cases hb : c.MAX_EC_SIZE < 94
    · rw [event_loop_stop c tvb m s (event_step_past_bound c tvb s hc (by omega))]
    · rw [event_loop_throw c tvb m s (event_step_read_fails c tvb s hc (by omega) (by omega))]

theorem scenario_first_step (c : Consts) (n : Fin 256) (region : tvbuff)
    (h32 : c.MAX_EC_SIZE < 4294967296) (hmax : 86 ≤ c.MAX_EC_SIZE) (hlen : 8 ≤ region.length)
    (htag : tagAt region 0 = c.TYPE_TIMESTAMP) (t b : Nat) :
    event_step c (scenario_frame n region) ⟨78, t, b⟩
      = .emit (.FullTimestampRefresh 78 (be32At region 0) (be32At region 4))
          ⟨86, be32At region 0, be32At region 4⟩ := by
  have e0 := scenario_frame_tagAt n region 0
  have e1 := scenario_frame_be32At n region 0
  have e2 := scenario_frame_be32At n region 4
  rw [show (78 : Nat) + 0 = 78 from rfl] at e0 e1
  rw [show (78 : Nat) + 4 = 82 from rfl] at e2
  have h := event_step_full_78 c (scenario_frame n region) h32 hmax
    (by rw [scenario_frame_length]; omega)
    (by unfold tagAt at e0 htag; rw [e0, htag]) t b
  rw [e1, e2] at h
  exact h
theorem scenario_second_step (c : Consts) (n : Fin 256) (region : tvbuff)
    (h32 : c.MAX_EC_SIZE < 4294967296) (hmax : 90 ≤ c.MAX_EC_SIZE) (hlen : 12 ≤ region.length)
    (htag : tagAt region 8 ≠ c.TYPE_TIMESTAMP) (t b : Nat) :
    event_step c (scenario_frame n region) ⟨86, t, b⟩
      = .emit (.ShortEvent 86 (tagAt region 8)
                ((be32At region 8 &&& c.MASK_QUEUE_ID) >>> 27)
                ((be32At region 8 &&& c.MASK_PACKET_LEN) >>> 19) t
                ((b &&& u32_not c.MASK_TIME_LSB) ||| (be32At region 8 &&& c.MASK_TIME_LSB)))
          ⟨90, t, b⟩ := by
  have e0 := scenario_frame_tagAt n region 8
  have e1 := scenario_frame_be32At n region 8
  rw [show (78 : Nat) + 8 = 86 from rfl] at e0 e1
  have h := event_step_short c (scenario_frame n region) ⟨86, t, b⟩ h32
    (by show 86 + 4 ≤ _; omega) (by rw [scenario_frame_length]; show 86 + 4 ≤ _; omega)
    (by show tagAt _ 86 ≠ _; rw [e0]; exact htag)
  rw [h]
  unfold shortEventAt
  simp only [e0, e1]
/-- C7 (amended): in the scenario (version 1, sequence number 42, queue pairs
zero, header timestamp (0, 0), region = full-timestamp record (0, 8) followed by
the word (3 shifted by 27) or (64 shifted by 19) or 5), with the tag read from
the two top bits of the first byte of a record, full-timestamp tag 0, queue id
in bits 27-29, packet length in bits 19-26, the low 19 bits for the timestamp
fragment and a capture size of at least 90, the dissector adds exactly the one
item FullTimestampRefresh (0, 8): the word 0x1A000005 carries tag 0 and is not
decoded as a short event.  When the word also carries a non-zero tag t in its
two top bits, the dissector adds exactly the two items FullTimestampRefresh
(0, 8) and ShortEvent with queue_id 3, packet_len 64, top 0 and bottom
(8 and not MASK_TIME_LSB) or 5, which is 5. -/
theorem scenario_events (c : Consts) (n : Fin 256) (fuel : Nat)
    (h0 : c.TYPE_TIMESTAMP = 0) (hq : c.MASK_QUEUE_ID = 0x38000000)
    (hp : c.MASK_PACKET_LEN = 0x07F80000) (hl : c.MASK_TIME_LSB = 0x0007FFFF)
    (hmax : 90 ≤ c.MAX_EC_SIZE) (h32 : c.MAX_EC_SIZE < 4294967296) (hf : 3 ≤ fuel) :
    (dissect_openflow c (scenario_frame n (scenario_region 0x1A000005)) fuel).events
      = [.FullTimestampRefresh 78 0 8]
    ∧ (∀ t, 1 ≤ t → t ≤ 3 →
        (dissect_openflow c (scenario_frame n (scenario_region (t * 0x40000000 + 0x1A000005)))
            fuel).events
          = [.FullTimestampRefresh 78 0 8,
             .ShortEvent 86 t 3 64 0 ((8 &&& u32_not c.MASK_TIME_LSB) ||| 5)])
    ∧ (8 &&& u32_not c.MASK_TIME_LSB) ||| 5 = 5 := by
  obtain ⟨m, rfl⟩ : ∃ m, fuel = m + 3 := ⟨fuel - 3, by omega⟩
  have hc : c.inRange := ⟨by omega, h32⟩
  have hlen : ∀ w, (scenario_frame n (scenario_region w)).length = 90 := fun w => by
    rw [scenario_frame_length, scenario_region_length]
  refine ⟨?_, ?_, ?_⟩
  · have hfirst := scenario_first_step c n (scenario_region 0x1A000005) h32 (by omega)
      (by decide) (by rw [h0]; decide)
    rw [show be32At (scenario_region 0x1A000005) 0 = 0 from by decide,
      show be32At (scenario_region 0x1A000005) 4 = 8 from by decide] at hfirst
    rw [dissect_openflow_eq c _ _ (by rw [hlen]; omega),
      event_loop_emit c _ (m + 2) _ _ _ (hfirst _ _),
      scenario_no_item_at_86 c n h0 (m + 2) _ rfl]
  · intro t ht1 ht3
    have hw : ∀ w : Nat, (tagAt (scenario_region w) 0 = 0 ∧ be32At (scenario_region w) 0 = 0
        ∧ be32At (scenario_region w) 4 = 8 ∧ tagAt (scenario_region w) 8 = t
        ∧ be32At (scenario_region w) 8 = w ∧ (w &&& 0x38000000) >>> 27 = 3
        ∧ (w &&& 0x07F80000) >>> 19 = 64 ∧ w &&& 0x0007FFFF = 5 ∧ t ≠ 0) →
        (dissect_openflow c (scenario_frame n (scenario_region w)) (m + 3)).events
          = [.FullTimestampRefresh 78 0 8,
             .ShortEvent 86 t 3 64 0 ((8 &&& u32_not c.MASK_TIME_LSB) ||| 5)] := by
      intro w ⟨w1, w2, w3, w4, w5, w6, w7, w8, w9⟩
      have hfirst := scenario_first_step c n (scenario_region w) h32 (by omega)
        (by rw [scenario_region_length]; omega) (by rw [h0]; exact w1)
      rw [w2, w3] at hfirst
      have hsecond := scenario_second_step c n (scenario_region w) h32 hmax
        (by rw [scenario_region_length]) (by rw [h0, w4]; exact w9) 0 8
      rw [w4, w5, hq, hp, hl, w6, w7, w8, ← hl] at hsecond
      rw [dissect_openflow_eq c _ _ (by rw [hlen]; omega),
        event_loop_emit c _ (m + 2) _ _ _ (hfirst _ _),
        event_loop_emit c _ (m + 1) _ _ _ hsecond,
        no_item_at_frame_end c _ hc (hlen _) (m + 1) _ rfl]
    apply hw
    interval_cases t <;> decide
  · rw [hl]
    decide

/-- Instance of the amended C7 with the sample constants and capture size 90. -/
theorem scenario_events_witness :
    (dissect_openflow (sample_consts 90) (scenario_frame 2 (scenario_region 0x1A000005)) 3).events
      = [.FullTimestampRefresh 78 0 8] :=
  (scenario_events (sample_consts 90) 2 3 rfl rfl rfl rfl (by decide) (by decide)
    (by decide)).1

end OpenflowDissector
